import Mathlib

/-
Shallow embedding of the core simulation engine of tetris.cpp
(classes Piece and Board; rendering, SDL and timing glue are outside the
embedded core).  C++ ints become Lean Int, the 20x12 array of Piece*
becomes a total function Fin 20 -> Fin 12 -> Option Nat holding indices
into the piece vector (the C++ raw pointers are back-references into
std::vector<Piece> pieces; indices play that role here, and the
rebuild-after-erase step of collapseFullRows re-derives them exactly as
the C++ re-derives the addresses).  The random footprint chosen by the
Piece constructor and the round-robin color are externalized: the
footprint of a freshly spawned piece is a parameter of Board.update, and
color is dropped (no embedded operation reads it).
-/

set_option autoImplicit false

namespace Tetris

/-- The four directions of tetris.cpp's `enum class Direction`. -/
inductive Direction where
  | UP
  | DOWN
  | LEFT
  | RIGHT
deriving DecidableEq

/-- `Board::NUM_ROWS`. -/
def NUM_ROWS : Int := 20

/-- `Board::NUM_COLS`. -/
def NUM_COLS : Int := 12

/-- `Piece::TileGridType`: the 4x4 boolean footprint
(`MAX_HEIGHT = MAX_WIDTH = 4`). -/
abbrev TileGrid := Fin 4 → Fin 4 → Bool

/-- Total read of a footprint at integer offsets: the value of
`tg[r][c]` when `0 <= r,c < 4`, and `false` outside that window.  The
C++ indexes the `std::array` directly; all embedded call sites either
establish the bounds first or (removeTile) are only reached with
in-window offsets in well-formed states. -/
def getTile (tg : TileGrid) (r c : Int) : Bool :=
  if h : 0 ≤ r ∧ r < 4 ∧ 0 ≤ c ∧ c < 4 then
    tg ⟨r.toNat, by omega⟩ ⟨c.toNat, by omega⟩
  else
    false

/-- `class Piece`: footprint plus anchor (`row`, `col`).  The `color`
field of the C++ class is dropped: no embedded operation reads it. -/
structure Piece where
  tileGrid : TileGrid
  row : Int
  col : Int

/-- The all-false footprint (`tileGrid = { false }` default). -/
def emptyTG : TileGrid := fun _ _ => false

/-- Build a 4x4 footprint from row lists (missing entries are false),
used to transcribe `Piece::DEFAULT_PIECES`. -/
def tgOfRows (rows : List (List Bool)) : TileGrid :=
  fun r c => ((rows.getD r.val []).getD c.val false)

/-- `DEFAULT_PIECES[0]`: the horizontal I footprint. -/
def pieceI : TileGrid :=
  tgOfRows [[true, true, true, true], [], [], []]

/-- `DEFAULT_PIECES[1]`: the T-like footprint. -/
def pieceT : TileGrid :=
  tgOfRows [[false, true, false, false], [true, true, true, false], [], []]

/-- `DEFAULT_PIECES[2]`: the J-like footprint. -/
def pieceJ : TileGrid :=
  tgOfRows [[true, true, false, false], [true, false, false, false],
            [true, false, false, false], []]

/-- `DEFAULT_PIECES[3]`: the L-like footprint. -/
def pieceL : TileGrid :=
  tgOfRows [[true, true, false, false], [false, true, false, false],
            [false, true, false, false], []]

/-- `DEFAULT_PIECES[4]`: the O (square) footprint. -/
def pieceO : TileGrid :=
  tgOfRows [[true, true, false, false], [true, true, false, false], [], []]

/-- `Piece::DEFAULT_PIECES`, the five-shape catalog. -/
def DEFAULT_PIECES : List TileGrid := [pieceI, pieceT, pieceJ, pieceL, pieceO]

/-- `class Board`: the dense occupancy grid (cell to owning piece index),
the piece collection, the active piece (index into `pieces`, standing for
the C++ `activePiece` pointer) and the completed-row counter. -/
structure Board where
  pieceGrid : Fin 20 → Fin 12 → Option Nat
  pieces : List Piece
  activeIdx : Nat
  rowsCompleted : Nat

/-- The piece stored at index `i` of the collection (the piece a grid
back-reference `some i` designates).  Out-of-range indices yield a
placeholder empty piece; the C++ would dereference a dangling pointer
there, which never happens in well-formed states. -/
def Board.pieceAt (b : Board) (i : Nat) : Piece :=
  b.pieces.getD i ⟨emptyTG, 0, 0⟩

/-- Bounds test of `Piece::moveTo`:
`!(absoluteRow < 0 || absoluteRow >= NUM_ROWS || absoluteCol < 0 || absoluteCol >= NUM_COLS)`. -/
def inBoundsB (r c : Int) : Bool :=
  decide (0 ≤ r ∧ r < NUM_ROWS ∧ 0 ≤ c ∧ c < NUM_COLS)

/-- Total read of the occupancy grid at integer coordinates (the C++
reads `board.pieceGrid[r][c]` only after the bounds check). -/
def getCell (b : Board) (r c : Int) : Option Nat :=
  if h : 0 ≤ r ∧ r < 20 ∧ 0 ≤ c ∧ c < 12 then
    b.pieceGrid ⟨r.toNat, by omega⟩ ⟨c.toNat, by omega⟩
  else
    none

/-- Does the footprint `tg` anchored at `(ar, ac)` cover board cell
`(r, c)`?  The sub-cell of a covered cell is uniquely determined as
`(r - ar, c - ac)`, so this single lookup is the loop over sub-cells of
the C++ specialized to the one candidate. -/
def coversB (tg : TileGrid) (ar ac : Int) (r : Fin 20) (c : Fin 12) : Bool :=
  getTile tg ((r.val : Int) - ar) ((c.val : Int) - ac)

/-- The occupied-cells set of a piece: its anchor plus the true
sub-cells of its footprint, restricted to the board. -/
def Piece.occupies (p : Piece) (r : Fin 20) (c : Fin 12) : Prop :=
  coversB p.tileGrid p.row p.col r c = true

instance (p : Piece) (r : Fin 20) (c : Fin 12) : Decidable (p.occupies r c) := by
  unfold Piece.occupies; infer_instance

/-- Write `v` into every grid cell covered by `tg` anchored at
`(ar, ac)`: the pointwise form of the C++ per-sub-cell assignment loops
of `Piece::moveTo` (each covered cell is written exactly once since its
sub-cell is unique; out-of-board sub-cells have no corresponding cell). -/
def writeCells (g : Fin 20 → Fin 12 → Option Nat) (tg : TileGrid)
    (ar ac : Int) (v : Option Nat) : Fin 20 → Fin 12 → Option Nat :=
  fun r c => if coversB tg ar ac r c then v else g r c

/-- The validation phase of `Piece::moveTo` (first loop): every occupied
sub-cell of the candidate footprint must land in bounds and on a grid
cell that is free or already owned by this same piece `i`. -/
def Piece.validB (b : Board) (i : Nat) (newRow newCol : Int)
    (ntg : TileGrid) : Bool :=
  decide (∀ sr sc : Fin 4, ntg sr sc = true →
    inBoundsB (newRow + (sr.val : Int)) (newCol + (sc.val : Int)) = true ∧
    (getCell b (newRow + (sr.val : Int)) (newCol + (sc.val : Int)) = none ∨
     getCell b (newRow + (sr.val : Int)) (newCol + (sc.val : Int)) = some i))

/-- `Piece::moveTo`: validate the candidate placement; on failure return
false with the board untouched; on success clear the grid at the old
occupied cells, write ownership at the new occupied cells, and update
the stored anchor.  (The footprint member is updated by the caller:
`rotate` assigns it after a successful call, `move` passes the current
footprint unchanged.) -/
def Piece.moveTo (b : Board) (i : Nat) (newRow newCol : Int)
    (ntg : TileGrid) : Bool × Board :=
  if Piece.validB b i newRow newCol ntg then
    let p := b.pieceAt i
    (true,
      { b with
        pieceGrid :=
          writeCells (writeCells b.pieceGrid p.tileGrid p.row p.col none)
            ntg newRow newCol (some i),
        pieces := b.pieces.set i { p with row := newRow, col := newCol } })
  else
    (false, b)

/-- `Piece::move`: shift the anchor by one cell
(`row + (dir==DOWN) - (dir==UP)`, `col + (dir==RIGHT) - (dir==LEFT)`)
and attempt the relocation with the unchanged footprint; the returned
Bool is literally `!moveTo(...) && direction == DOWN`. -/
def Piece.move (b : Board) (i : Nat) (d : Direction) : Bool × Board :=
  let p := b.pieceAt i
  let newRow := p.row + (if d = Direction.DOWN then 1 else 0)
                      - (if d = Direction.UP then 1 else 0)
  let newCol := p.col + (if d = Direction.RIGHT then 1 else 0)
                      - (if d = Direction.LEFT then 1 else 0)
  let r := Piece.moveTo b i newRow newCol p.tileGrid
  (!r.1 && decide (d = Direction.DOWN), r.2)

/-- The rotation transform of `Piece::rotate`:
`newTileGrid[sourceCol][MAX_HEIGHT - sourceRow - 1] = tileGrid[sourceRow][sourceCol]`.
The index map is a bijection of the 4x4 window, so the double loop is
the pointwise function `(r, c) ↦ source (rev c) r`. -/
def rotateGrid (tg : TileGrid) : TileGrid :=
  fun r c => tg c.rev r

/-- `Piece::rotate`: compute the 90-degree-clockwise footprint, attempt
`moveTo` at the unchanged anchor, and commit the rotated footprint only
on success. -/
def Piece.rotate (b : Board) (i : Nat) : Board :=
  let p := b.pieceAt i
  let ntg := rotateGrid p.tileGrid
  let r := Piece.moveTo b i p.row p.col ntg
  if r.1 then
    { r.2 with pieces := r.2.pieces.set i { r.2.pieceAt i with tileGrid := ntg } }
  else
    r.2

/-- `Piece::removeTile` (drawing dropped): compute the sub-cell
`(rowToRemove - row, colToRemove - col)`; if that footprint entry is not
set (including, in this total embedding, offsets outside the 4x4
window), do nothing, else zero exactly that entry. -/
def Piece.removeTile (p : Piece) (rowToRemove colToRemove : Int) : Piece :=
  let subRow := rowToRemove - p.row
  let subCol := colToRemove - p.col
  if getTile p.tileGrid subRow subCol then
    { p with tileGrid := fun a b =>
        if (a.val : Int) = subRow ∧ (b.val : Int) = subCol then false
        else p.tileGrid a b }
  else
    p

/-- `Board::isRowFull`: true iff every column of the row has an owner;
the completed-row counter is incremented exactly on a true return. -/
def Board.isRowFull (b : Board) (r : Fin 20) : Bool × Board :=
  if (∀ c : Fin 12, b.pieceGrid r c ≠ none) then
    (true, { b with rowsCompleted := b.rowsCompleted + 1 })
  else
    (false, b)

/-- One column step of the row-clearing loop of `Board::collapseFullRows`:
`pieceGrid[row][col]->removeTile(...); pieceGrid[row][col] = nullptr;`.
A `none` cell is skipped; the caller only reaches this with a full row,
where every cell has an owner. -/
def clearRowCell (b : Board) (r : Fin 20) (c : Fin 12) : Board :=
  match b.pieceGrid r c with
  | some i =>
      { b with
        pieces := b.pieces.set i ((b.pieceAt i).removeTile (r.val : Int) (c.val : Int)),
        pieceGrid := fun r' c' => if r' = r ∧ c' = c then none else b.pieceGrid r' c' }
  | none => b

/-- The full row-clearing loop over the 12 columns. -/
def clearRow (b : Board) (r : Fin 20) : Board :=
  (List.finRange 12).foldl (fun b' c => clearRowCell b' r c) b

/-- The `remove_if` predicate of `Board::collapseFullRows`: a piece with
no tiles left on the board. -/
def Piece.hasNoTiles (p : Piece) : Bool :=
  decide (∀ sr sc : Fin 4, p.tileGrid sr sc = false)

/-- `pieces.erase(remove_if(...))`: drop every piece with no tiles left. -/
def eraseEmptyPieces (b : Board) : Board :=
  { b with pieces := b.pieces.filter (fun p => !p.hasNoTiles) }

/-- The grid rebuild of `Board::collapseFullRows`: zero the grid, then
re-place every piece at its own anchor and footprint via `moveTo`
(re-deriving the back-references whose C++ counterparts, raw addresses,
were invalidated by the erase). -/
def rebuildGrid (b : Board) : Board :=
  (List.range b.pieces.length).foldl
    (fun b' i =>
      (Piece.moveTo b' i (b'.pieceAt i).row (b'.pieceAt i).col
        (b'.pieceAt i).tileGrid).2)
    { b with pieceGrid := fun _ _ => none }

/-- The settling loop `while (!piece.move(Direction::DOWN, *this)) {}`:
keep moving the piece down while `move` returns false.  The fuel bounds
the iteration count; 24 exceeds the at most 23 calls any piece with at
least one tile can take (anchor row runs from at least -3 to at most 19),
and every piece reaching this loop has a tile (empty ones were erased). -/
def settlePiece (fuel : Nat) (b : Board) (i : Nat) : Board :=
  match fuel with
  | 0 => b
  | fuel + 1 =>
      let r := Piece.move b i Direction.DOWN
      if r.1 then r.2 else settlePiece fuel r.2 i

/-- The per-piece settling pass of `Board::collapseFullRows`: every piece,
in collection order, falls until its next down-move is rejected. -/
def settleAll (b : Board) : Board :=
  (List.range b.pieces.length).foldl (fun b' i => settlePiece 24 b' i) b

/-- `Board::collapseFullRows`: scan rows top to bottom; for each full row,
clear its cells out of their owners and the grid, erase now-empty pieces,
rebuild the grid, and re-settle every piece. -/
def Board.collapseFullRows (b : Board) : Board :=
  (List.finRange 20).foldl
    (fun b' r =>
      let f := b'.isRowFull r
      if f.1 then settleAll (rebuildGrid (eraseEmptyPieces (clearRow f.2 r)))
      else f.2)
    b

/-- The spawn anchor: a fresh `Piece` has `row = 0; col = 0`. -/
def SPAWN_ROW : Int := 0

/-- The spawn anchor column. -/
def SPAWN_COL : Int := 0

/-- `Board::update` (drawing dropped).  `spawnTg` stands for the random
catalog footprint the `Piece` constructor would draw if a spawn happens.
UP rotates the active piece; other directions attempt the move, and a
settling signal triggers row collapse, then a spawn whose failed initial
placement pops the fresh piece and returns false (game over). -/
def Board.update (b : Board) (d : Direction) (spawnTg : TileGrid) : Bool × Board :=
  if d = Direction.UP then
    (true, Piece.rotate b b.activeIdx)
  else
    let m := Piece.move b b.activeIdx d
    if m.1 then
      let b2 := m.2.collapseFullRows
      let newIdx := b2.pieces.length
      let b3 := { b2 with
        pieces := b2.pieces ++ [⟨spawnTg, SPAWN_ROW, SPAWN_COL⟩],
        activeIdx := newIdx }
      let s := Piece.moveTo b3 newIdx SPAWN_ROW SPAWN_COL spawnTg
      if s.1 then (true, s.2)
      else (false, { s.2 with pieces := s.2.pieces.dropLast })
    else
      (true, m.2)

/-- `Board::Board`: one fresh piece (footprint `tg`), active, empty grid.
The constructor does not write the piece into `pieceGrid`. -/
def initialBoard (tg : TileGrid) : Board :=
  { pieceGrid := fun _ _ => none
    pieces := [⟨tg, SPAWN_ROW, SPAWN_COL⟩]
    activeIdx := 0
    rowsCompleted := 0 }

/-- States reachable from a freshly constructed board by update calls,
with every randomly drawn footprint coming from the catalog. -/
inductive Reachable : Board → Prop where
  | init (tg : TileGrid) (h : tg ∈ DEFAULT_PIECES) : Reachable (initialBoard tg)
  | step (b : Board) (d : Direction) (tg : TileGrid) (h : tg ∈ DEFAULT_PIECES)
      (hb : Reachable b) : Reachable (b.update d tg).2

/-- Invariant I1, the grid/piece bidirectional consistency: a cell is in
piece `i`'s occupied-cell set iff the grid references `i` there. -/
def Consistent (b : Board) : Prop :=
  ∀ i, i < b.pieces.length → ∀ (r : Fin 20) (c : Fin 12),
    ((b.pieceAt i).occupies r c ↔ b.pieceGrid r c = some i)

/-- Every grid back-reference designates a live piece. -/
def ValidRefs (b : Board) : Prop :=
  ∀ (r : Fin 20) (c : Fin 12) (i : Nat),
    b.pieceGrid r c = some i → i < b.pieces.length

/-- Every occupied sub-cell of every piece lies on the board. -/
def PiecesInBounds (b : Board) : Prop :=
  ∀ i, i < b.pieces.length → ∀ sr sc : Fin 4,
    (b.pieceAt i).tileGrid sr sc = true →
    inBoundsB ((b.pieceAt i).row + (sr.val : Int))
      ((b.pieceAt i).col + (sc.val : Int)) = true

/-- Well-formedness carried through the preservation proofs. -/
def WF (b : Board) : Prop := Consistent b ∧ ValidRefs b ∧ PiecesInBounds b

instance decForallSome (o : Option Nat) (n : Nat) :
    Decidable (∀ i, o = some i → i < n) :=
  match o with
  | none => isTrue (fun i h => by cases h)
  | some j =>
      if hj : j < n then
        isTrue (fun i h => by cases h; exact hj)
      else
        isFalse (fun hall => hj (hall j rfl))

instance (b : Board) : Decidable (Consistent b) := by
  unfold Consistent; infer_instance

instance (b : Board) : Decidable (ValidRefs b) := by
  unfold ValidRefs; infer_instance

instance (b : Board) : Decidable (PiecesInBounds b) := by
  unfold PiecesInBounds; infer_instance

instance (b : Board) : Decidable (WF b) := by
  unfold WF; infer_instance

/-! ### Concrete boards for witnesses and scenarios -/

/-- A board whose single piece (footprint `tg`, anchor `(r0, c0)`) is
registered on the grid: the state reached right after the piece's first
successful relocation. -/
def placedBoard (tg : TileGrid) (r0 c0 : Int) : Board :=
  { pieceGrid := writeCells (fun _ _ => none) tg r0 c0 (some 0)
    pieces := [⟨tg, r0, c0⟩]
    activeIdx := 0
    rowsCompleted := 0 }

/-- The spawn block of `Board::update`, factored for statement
readability: append a fresh piece and attempt its initial placement. -/
def spawnAttempt (b2 : Board) (tg : TileGrid) : Bool × Board :=
  Piece.moveTo
    { b2 with
      pieces := b2.pieces ++ [⟨tg, SPAWN_ROW, SPAWN_COL⟩],
      activeIdx := b2.pieces.length }
    b2.pieces.length SPAWN_ROW SPAWN_COL tg

/-- Three I pieces filling row 19 completely (12 owned columns). -/
def c7Board : Board :=
  { pieceGrid :=
      writeCells (writeCells (writeCells (fun _ _ => none)
        pieceI 19 0 (some 0))
        pieceI 19 4 (some 1))
        pieceI 19 8 (some 2)
    pieces := [⟨pieceI, 19, 0⟩, ⟨pieceI, 19, 4⟩, ⟨pieceI, 19, 8⟩]
    activeIdx := 0
    rowsCompleted := 0 }

/-- The C9 scenario start: an I piece at anchor (0,4), registered. -/
def c9Start : Board := placedBoard pieceI 0 4

/-- One MOVE_DOWN update of the C9 scenario (spawn footprint I). -/
def c9Step (b : Board) : Board := (b.update Direction.DOWN pieceI).2

/-- The C9 scenario after n MOVE_DOWN updates. -/
def c9Seq : Nat → Board
  | 0 => c9Start
  | n + 1 => c9Step (c9Seq n)

/-- A single-cell footprint. -/
def tgDot : TileGrid := tgOfRows [[true], [], [], []]

/-- A vertical two-cell footprint. -/
def tgDomino : TileGrid := tgOfRows [[true], [true], [], []]

/-- A horizontal three-cell footprint. -/
def tgTri : TileGrid := tgOfRows [[true, true, true], [], [], []]

/-- The C10 scenario: piece 0 (a dot at (17,0)) rests on piece 1 (a
vertical domino at (18,0)-(19,0)); pieces 2-4 fill the rest of row 19,
which is therefore full. -/
def c10Board : Board :=
  { pieceGrid :=
      writeCells (writeCells (writeCells (writeCells (writeCells
        (fun _ _ => none)
        tgDot 17 0 (some 0))
        tgDomino 18 0 (some 1))
        pieceI 19 1 (some 2))
        pieceI 19 5 (some 3))
        tgTri 19 9 (some 4)
    pieces := [⟨tgDot, 17, 0⟩, ⟨tgDomino, 18, 0⟩, ⟨pieceI, 19, 1⟩,
      ⟨pieceI, 19, 5⟩, ⟨tgTri, 19, 9⟩]
    activeIdx := 0
    rowsCompleted := 0 }

/-! ### List accessor helper lemmas -/

theorem getD_lt {α : Type} (l : List α) (i : Nat) (d : α) (h : i < l.length) :
    l.getD i d = l.get ⟨i, h⟩ := by
  simp [List.getD_eq_getElem?_getD, List.getElem?_eq_getElem h]

theorem getD_of_le {α : Type} (l : List α) (i : Nat) (d : α) (h : l.length ≤ i) :
    l.getD i d = d := by
  simp [List.getD_eq_getElem?_getD, List.getElem?_eq_none h]

theorem getD_set_self {α : Type} (l : List α) (i : Nat) (p d : α)
    (h : i < l.length) : (l.set i p).getD i d = p := by
  simp [List.getD_eq_getElem?_getD, List.getElem?_set, h]

theorem getD_set_ne {α : Type} (l : List α) (i j : Nat) (p d : α)
    (h : i ≠ j) : (l.set i p).getD j d = l.getD j d := by
  simp [List.getD_eq_getElem?_getD, List.getElem?_set, h]

theorem set_getD_self {α : Type} (l : List α) (i : Nat) (d : α)
    (h : i < l.length) : l.set i (l.getD i d) = l := by
  apply List.ext_getElem?
  intro j
  rw [List.getElem?_set]
  split
  · next hij =>
      subst hij
      simp [h, getD_lt l i d h]
  · rfl

theorem getD_append_left {α : Type} (l1 l2 : List α) (i : Nat) (d : α)
    (h : i < l1.length) : (l1 ++ l2).getD i d = l1.getD i d := by
  simp [List.getD_eq_getElem?_getD, List.getElem?_append, h]

theorem getD_concat_self {α : Type} (l : List α) (p d : α) :
    (l ++ [p]).getD l.length d = p := by
  simp [List.getD_eq_getElem?_getD, List.getElem?_concat_length]

theorem getD_mem {α : Type} (l : List α) (i : Nat) (d : α) (h : i < l.length) :
    l.getD i d ∈ l := by
  rw [getD_lt l i d h, List.get_eq_getElem]
  exact List.getElem_mem h

/-! ### Footprint, grid and validation lemmas -/

theorem getTile_iff (tg : TileGrid) (r c : Int) :
    getTile tg r c = true ↔
      ∃ sr sc : Fin 4, tg sr sc = true ∧ r = (sr.val : Int) ∧ c = (sc.val : Int) := by
  unfold getTile
  split
  · next h =>
      obtain ⟨h1, h2, h3, h4⟩ := h
      constructor
      · intro ht
        refine ⟨⟨r.toNat, by omega⟩, ⟨c.toNat, by omega⟩, ht, ?_, ?_⟩
        · show r = ((r.toNat : Nat) : Int)
          omega
        · show c = ((c.toNat : Nat) : Int)
          omega
      · rintro ⟨sr, sc, ht, hr, hc⟩
        convert ht using 2
        · exact Fin.ext (show r.toNat = sr.val by omega)
        · exact Fin.ext (show c.toNat = sc.val by omega)
  · next h =>
      constructor
      · intro hf
        simp at hf
      · rintro ⟨sr, sc, _, hr, hc⟩
        exfalso
        apply h
        refine ⟨by omega, by omega, by omega, by omega⟩

theorem coversB_iff (tg : TileGrid) (ar ac : Int) (r : Fin 20) (c : Fin 12) :
    coversB tg ar ac r c = true ↔
      ∃ sr sc : Fin 4, tg sr sc = true ∧
        (r.val : Int) = ar + (sr.val : Int) ∧ (c.val : Int) = ac + (sc.val : Int) := by
  unfold coversB
  rw [getTile_iff]
  constructor
  · rintro ⟨sr, sc, ht, hr, hc⟩
    exact ⟨sr, sc, ht, by omega, by omega⟩
  · rintro ⟨sr, sc, ht, hr, hc⟩
    exact ⟨sr, sc, ht, by omega, by omega⟩

theorem inBoundsB_iff (r c : Int) :
    inBoundsB r c = true ↔ 0 ≤ r ∧ r < 20 ∧ 0 ≤ c ∧ c < 12 := by
  unfold inBoundsB NUM_ROWS NUM_COLS
  rw [decide_eq_true_iff]

theorem getCell_eq_grid (b : Board) (rr cc : Int) (r : Fin 20) (c : Fin 12)
    (hr : rr = (r.val : Int)) (hc : cc = (c.val : Int)) :
    getCell b rr cc = b.pieceGrid r c := by
  subst hr
  subst hc
  unfold getCell
  split
  · next h =>
      congr 1
  · next h =>
      exact absurd ⟨by omega, by omega, by omega, by omega⟩ h

theorem validB_iff (b : Board) (i : Nat) (nr nc : Int) (ntg : TileGrid) :
    Piece.validB b i nr nc ntg = true ↔
      ∀ sr sc : Fin 4, ntg sr sc = true →
        inBoundsB (nr + (sr.val : Int)) (nc + (sc.val : Int)) = true ∧
        (getCell b (nr + (sr.val : Int)) (nc + (sc.val : Int)) = none ∨
         getCell b (nr + (sr.val : Int)) (nc + (sc.val : Int)) = some i) := by
  unfold Piece.validB
  rw [decide_eq_true_iff]

/-- A covered cell of a validated candidate is free or owned by the piece
itself. -/
theorem valid_covered (b : Board) (i : Nat) (nr nc : Int) (ntg : TileGrid)
    (hval : Piece.validB b i nr nc ntg = true) (r : Fin 20) (c : Fin 12)
    (hcov : coversB ntg nr nc r c = true) :
    b.pieceGrid r c = none ∨ b.pieceGrid r c = some i := by
  obtain ⟨sr, sc, ht, hr, hc⟩ := (coversB_iff ntg nr nc r c).mp hcov
  have h := (validB_iff b i nr nc ntg).mp hval sr sc ht
  rw [getCell_eq_grid b _ _ r c hr.symm hc.symm] at h
  exact h.2

theorem moveTo_of_valid (b : Board) (i : Nat) (nr nc : Int) (ntg : TileGrid)
    (h : Piece.validB b i nr nc ntg = true) :
    Piece.moveTo b i nr nc ntg =
      (true,
        { b with
          pieceGrid :=
            writeCells
              (writeCells b.pieceGrid (b.pieceAt i).tileGrid (b.pieceAt i).row
                (b.pieceAt i).col none)
              ntg nr nc (some i),
          pieces := b.pieces.set i ⟨(b.pieceAt i).tileGrid, nr, nc⟩ }) := by
  simp [Piece.moveTo, h]

theorem moveTo_of_not_valid (b : Board) (i : Nat) (nr nc : Int) (ntg : TileGrid)
    (h : Piece.validB b i nr nc ntg = false) :
    Piece.moveTo b i nr nc ntg = (false, b) := by
  simp [Piece.moveTo, h]

theorem moveTo_fst (b : Board) (i : Nat) (nr nc : Int) (ntg : TileGrid) :
    (Piece.moveTo b i nr nc ntg).1 = Piece.validB b i nr nc ntg := by
  unfold Piece.moveTo
  split <;> simp_all

theorem moveTo_fail_snd (b : Board) (i : Nat) (nr nc : Int) (ntg : TileGrid)
    (h : (Piece.moveTo b i nr nc ntg).1 = false) :
    (Piece.moveTo b i nr nc ntg).2 = b := by
  rw [moveTo_fst] at h
  rw [moveTo_of_not_valid b i nr nc ntg h]

/-! ### The central placement lemma -/

/-- Committing piece `i` with footprint `ntg` at anchor `(nr, nc)` after a
successful validation keeps the board well formed, provided the grid's
references to `i` lie inside its current occupied cells and those occupied
cells are free-or-self on the grid (trivially true both for a well-formed
board and for a just-appended spawn not yet on the grid). -/
theorem place_WF (b : Board) (i : Nat) (hi : i < b.pieces.length)
    (nr nc : Int) (ntg : TileGrid)
    (hval : Piece.validB b i nr nc ntg = true)
    (hOthers : ∀ j, j < b.pieces.length → j ≠ i → ∀ (r : Fin 20) (c : Fin 12),
      ((b.pieceAt j).occupies r c ↔ b.pieceGrid r c = some j))
    (hOthersB : ∀ j, j < b.pieces.length → j ≠ i → ∀ sr sc : Fin 4,
      (b.pieceAt j).tileGrid sr sc = true →
      inBoundsB ((b.pieceAt j).row + (sr.val : Int))
        ((b.pieceAt j).col + (sc.val : Int)) = true)
    (hVR : ValidRefs b)
    (hSub : ∀ (r : Fin 20) (c : Fin 12), b.pieceGrid r c = some i →
      (b.pieceAt i).occupies r c)
    (hSup : ∀ (r : Fin 20) (c : Fin 12), (b.pieceAt i).occupies r c →
      b.pieceGrid r c = none ∨ b.pieceGrid r c = some i)
    (b' : Board)
    (hb' : b' = { b with
      pieceGrid :=
        writeCells
          (writeCells b.pieceGrid (b.pieceAt i).tileGrid (b.pieceAt i).row
            (b.pieceAt i).col none)
          ntg nr nc (some i),
      pieces := b.pieces.set i ⟨ntg, nr, nc⟩ }) :
    WF b' := by
  subst hb'
  have hNew : ∀ (r : Fin 20) (c : Fin 12), coversB ntg nr nc r c = true →
      b.pieceGrid r c = none ∨ b.pieceGrid r c = some i :=
    fun r c => valid_covered b i nr nc ntg hval r c
  refine ⟨?_, ?_, ?_⟩
  · -- consistency of the committed board
    intro j hj r c
    simp only [List.length_set] at hj
    show ((b.pieces.set i ⟨ntg, nr, nc⟩).getD j ⟨emptyTG, 0, 0⟩).occupies r c ↔
      (if coversB ntg nr nc r c then some i
       else if coversB (b.pieceAt i).tileGrid (b.pieceAt i).row
          (b.pieceAt i).col r c then none
       else b.pieceGrid r c) = some j
    by_cases hji : j = i
    · subst hji
      rw [getD_set_self _ _ _ _ hj]
      constructor
      · intro hocc
        have hcov : coversB ntg nr nc r c = true := hocc
        rw [if_pos hcov]
      · intro hg
        by_cases hcov : coversB ntg nr nc r c = true
        · exact hcov
        · rw [if_neg hcov] at hg
          by_cases hold : coversB (b.pieceAt j).tileGrid (b.pieceAt j).row
              (b.pieceAt j).col r c = true
          · rw [if_pos hold] at hg
            exact Option.noConfusion hg
          · rw [if_neg hold] at hg
            exact absurd (hSub r c hg) hold
    · have hij : i ≠ j := fun h => hji h.symm
      rw [getD_set_ne _ _ _ _ _ hij]
      have hOj := hOthers j hj hji r c
      constructor
      · intro hocc
        have hgj : b.pieceGrid r c = some j := hOj.mp hocc
        have hcovF : ¬ coversB ntg nr nc r c = true := by
          intro hcov
          rcases hNew r c hcov with h0 | h0 <;> rw [hgj] at h0
          · exact Option.noConfusion h0
          · exact hij (Option.some.inj h0).symm
        have holdF : ¬ coversB (b.pieceAt i).tileGrid (b.pieceAt i).row
            (b.pieceAt i).col r c = true := by
          intro hold
          rcases hSup r c hold with h0 | h0 <;> rw [hgj] at h0
          · exact Option.noConfusion h0
          · exact hij (Option.some.inj h0).symm
        rw [if_neg hcovF, if_neg holdF]
        exact hgj
      · intro hg
        by_cases hcov : coversB ntg nr nc r c = true
        · rw [if_pos hcov] at hg
          exact absurd (Option.some.inj hg) hij
        · rw [if_neg hcov] at hg
          by_cases hold : coversB (b.pieceAt i).tileGrid (b.pieceAt i).row
              (b.pieceAt i).col r c = true
          · rw [if_pos hold] at hg
            exact Option.noConfusion hg
          · rw [if_neg hold] at hg
            exact hOj.mpr hg
  · -- valid references
    intro r c j hg
    simp only [List.length_set]
    replace hg : (if coversB ntg nr nc r c then some i
       else if coversB (b.pieceAt i).tileGrid (b.pieceAt i).row
          (b.pieceAt i).col r c then none
       else b.pieceGrid r c) = some j := hg
    by_cases hcov : coversB ntg nr nc r c = true
    · rw [if_pos hcov] at hg
      exact (Option.some.inj hg) ▸ hi
    · rw [if_neg hcov] at hg
      by_cases hold : coversB (b.pieceAt i).tileGrid (b.pieceAt i).row
          (b.pieceAt i).col r c = true
      · rw [if_pos hold] at hg
        exact Option.noConfusion hg
      · rw [if_neg hold] at hg
        exact hVR r c j hg
  · -- occupied sub-cells stay on the board
    intro j hj sr sc ht
    simp only [List.length_set] at hj
    replace ht : ((b.pieces.set i ⟨ntg, nr, nc⟩).getD j ⟨emptyTG, 0, 0⟩).tileGrid
        sr sc = true := ht
    show inBoundsB
        (((b.pieces.set i ⟨ntg, nr, nc⟩).getD j ⟨emptyTG, 0, 0⟩).row + (sr.val : Int))
        (((b.pieces.set i ⟨ntg, nr, nc⟩).getD j ⟨emptyTG, 0, 0⟩).col + (sc.val : Int)) = true
    by_cases hji : j = i
    · subst hji
      rw [getD_set_self _ _ _ _ hj] at ht ⊢
      exact ((validB_iff b j nr nc ntg).mp hval sr sc ht).1
    · have hij : i ≠ j := fun h => hji h.symm
      rw [getD_set_ne _ _ _ _ _ hij] at ht ⊢
      exact hOthersB j hj hji sr sc ht

/-! ### Preservation through move and rotate -/

theorem moveTo_self_WF (b : Board) (hWF : WF b) (i : Nat)
    (hi : i < b.pieces.length) (nr nc : Int) :
    WF (Piece.moveTo b i nr nc (b.pieceAt i).tileGrid).2 ∧
    (Piece.moveTo b i nr nc (b.pieceAt i).tileGrid).2.pieces.length =
      b.pieces.length ∧
    (Piece.moveTo b i nr nc (b.pieceAt i).tileGrid).2.activeIdx = b.activeIdx := by
  obtain ⟨hC, hVR, hPB⟩ := hWF
  by_cases hval : Piece.validB b i nr nc (b.pieceAt i).tileGrid = true
  · rw [moveTo_of_valid b i nr nc _ hval]
    refine ⟨?_, ?_, ?_⟩
    · apply place_WF b i hi nr nc (b.pieceAt i).tileGrid hval
      · intro j hj _ r c
        exact hC j hj r c
      · intro j hj _ sr sc ht
        exact hPB j hj sr sc ht
      · exact hVR
      · intro r c hg
        exact (hC i hi r c).mpr hg
      · intro r c hocc
        exact Or.inr ((hC i hi r c).mp hocc)
      · rfl
    · simp [List.length_set]
    · rfl
  · have hval' : Piece.validB b i nr nc (b.pieceAt i).tileGrid = false := by
      simpa using hval
    rw [moveTo_of_not_valid b i nr nc _ hval']
    exact ⟨⟨hC, hVR, hPB⟩, rfl, rfl⟩

theorem move_WF (b : Board) (hWF : WF b) (i : Nat) (hi : i < b.pieces.length)
    (d : Direction) :
    WF (Piece.move b i d).2 ∧
    (Piece.move b i d).2.pieces.length = b.pieces.length ∧
    (Piece.move b i d).2.activeIdx = b.activeIdx :=
  moveTo_self_WF b hWF i hi _ _

theorem rotate_of_not_valid (b : Board) (i : Nat)
    (h : Piece.validB b i (b.pieceAt i).row (b.pieceAt i).col
        (rotateGrid (b.pieceAt i).tileGrid) = false) :
    Piece.rotate b i = b := by
  simp [Piece.rotate, moveTo_of_not_valid b i _ _ _ h]

theorem rotate_of_valid (b : Board) (i : Nat) (hi : i < b.pieces.length)
    (h : Piece.validB b i (b.pieceAt i).row (b.pieceAt i).col
        (rotateGrid (b.pieceAt i).tileGrid) = true) :
    Piece.rotate b i = { b with
      pieceGrid :=
        writeCells
          (writeCells b.pieceGrid (b.pieceAt i).tileGrid (b.pieceAt i).row
            (b.pieceAt i).col none)
          (rotateGrid (b.pieceAt i).tileGrid) (b.pieceAt i).row
          (b.pieceAt i).col (some i),
      pieces := b.pieces.set i
        ⟨rotateGrid (b.pieceAt i).tileGrid, (b.pieceAt i).row, (b.pieceAt i).col⟩ } := by
  have e := moveTo_of_valid b i (b.pieceAt i).row (b.pieceAt i).col _ h
  simp only [Piece.rotate, e]
  simp only [Board.pieceAt, if_true, List.set_set,
    getD_set_self b.pieces i
      ⟨(b.pieces.getD i ⟨emptyTG, 0, 0⟩).tileGrid,
       (b.pieces.getD i ⟨emptyTG, 0, 0⟩).row,
       (b.pieces.getD i ⟨emptyTG, 0, 0⟩).col⟩
      ⟨emptyTG, 0, 0⟩ hi]

theorem rotate_WF (b : Board) (hWF : WF b) (i : Nat)
    (hi : i < b.pieces.length) :
    WF (Piece.rotate b i) ∧
    (Piece.rotate b i).pieces.length = b.pieces.length ∧
    (Piece.rotate b i).activeIdx = b.activeIdx := by
  obtain ⟨hC, hVR, hPB⟩ := hWF
  by_cases hval : Piece.validB b i (b.pieceAt i).row (b.pieceAt i).col
      (rotateGrid (b.pieceAt i).tileGrid) = true
  · rw [rotate_of_valid b i hi hval]
    refine ⟨?_, ?_, ?_⟩
    · apply place_WF b i hi (b.pieceAt i).row (b.pieceAt i).col _ hval
      · intro j hj _ r c
        exact hC j hj r c
      · intro j hj _ sr sc ht
        exact hPB j hj sr sc ht
      · exact hVR
      · intro r c hg
        exact (hC i hi r c).mpr hg
      · intro r c hocc
        exact Or.inr ((hC i hi r c).mp hocc)
      · rfl
    · simp [List.length_set]
    · rfl
  · rw [rotate_of_not_valid b i (by simpa using hval)]
    exact ⟨⟨hC, hVR, hPB⟩, rfl, rfl⟩

/-! ### Preservation through row clearing -/

theorem foldl_pres {α β : Type} (P : α → Prop) (f : α → β → α) (l : List β)
    (hf : ∀ a x, x ∈ l → P a → P (f a x)) (a : α) (ha : P a) :
    P (l.foldl f a) := by
  induction l generalizing a with
  | nil => exact ha
  | cons x xs ih =>
      exact ih (fun a' y hy ha' => hf a' y (List.mem_cons_of_mem x hy) ha')
        (f a x) (hf a x (List.mem_cons_self x xs) ha)

theorem WF_congr (b b' : Board) (hg : b'.pieceGrid = b.pieceGrid)
    (hp : b'.pieces = b.pieces) (h : WF b) : WF b' := by
  obtain ⟨hC, hVR, hPB⟩ := h
  refine ⟨?_, ?_, ?_⟩
  · intro i hi r c
    rw [hp] at hi
    unfold Board.pieceAt
    rw [hp, hg]
    exact hC i hi r c
  · intro r c i hgrc
    rw [hg] at hgrc
    rw [hp]
    exact hVR r c i hgrc
  · intro i hi sr sc ht
    rw [hp] at hi
    unfold Board.pieceAt at ht ⊢
    rw [hp] at ht ⊢
    exact hPB i hi sr sc ht

theorem isRowFull_parts (b : Board) (r : Fin 20) :
    (b.isRowFull r).2.pieceGrid = b.pieceGrid ∧
    (b.isRowFull r).2.pieces = b.pieces ∧
    (b.isRowFull r).2.activeIdx = b.activeIdx := by
  unfold Board.isRowFull
  split <;> exact ⟨rfl, rfl, rfl⟩

theorem getTile_fin (tg : TileGrid) (a b : Fin 4) :
    getTile tg (a.val : Int) (b.val : Int) = tg a b := by
  unfold getTile
  split
  · next h =>
      congr 1
  · next h =>
      exact absurd ⟨by omega, by omega, by omega, by omega⟩ h

theorem removeTile_row (p : Piece) (rr cc : Int) :
    (p.removeTile rr cc).row = p.row := by
  simp only [Piece.removeTile]
  split <;> rfl

theorem removeTile_col (p : Piece) (rr cc : Int) :
    (p.removeTile rr cc).col = p.col := by
  simp only [Piece.removeTile]
  split <;> rfl

theorem removeTile_tileGrid (p : Piece) (rr cc : Int) (a b : Fin 4) :
    (p.removeTile rr cc).tileGrid a b =
      if (a.val : Int) = rr - p.row ∧ (b.val : Int) = cc - p.col then false
      else p.tileGrid a b := by
  simp only [Piece.removeTile]
  split
  · rfl
  · next hng =>
      split
      · next hcond =>
          rw [← hcond.1, ← hcond.2, getTile_fin] at hng
          simpa using hng
      · rfl

theorem removeTile_occ_iff (p : Piece) (r : Fin 20) (c : Fin 12)
    (r' : Fin 20) (c' : Fin 12) :
    (p.removeTile (r.val : Int) (c.val : Int)).occupies r' c' ↔
      (p.occupies r' c' ∧ ¬(r' = r ∧ c' = c)) := by
  unfold Piece.occupies
  rw [show (p.removeTile (r.val : Int) (c.val : Int)).tileGrid =
      (p.removeTile (r.val : Int) (c.val : Int)).tileGrid from rfl]
  rw [coversB_iff, coversB_iff, removeTile_row, removeTile_col]
  constructor
  · rintro ⟨sr, sc, ht, hr, hc⟩
    rw [removeTile_tileGrid] at ht
    by_cases hcond : (sr.val : Int) = (r.val : Int) - p.row ∧
        (sc.val : Int) = (c.val : Int) - p.col
    · rw [if_pos hcond] at ht
      exact absurd ht (by simp)
    · rw [if_neg hcond] at ht
      refine ⟨⟨sr, sc, ht, hr, hc⟩, ?_⟩
      rintro ⟨rfl, rfl⟩
      exact hcond ⟨by omega, by omega⟩
  · rintro ⟨⟨sr, sc, ht, hr, hc⟩, hne⟩
    refine ⟨sr, sc, ?_, hr, hc⟩
    rw [removeTile_tileGrid]
    rw [if_neg ?_]
    · exact ht
    · rintro ⟨h1, h2⟩
      apply hne
      constructor
      · exact Fin.ext (by omega)
      · exact Fin.ext (by omega)

theorem clearRowCell_none (b : Board) (r : Fin 20) (c : Fin 12)
    (h : b.pieceGrid r c = none) : clearRowCell b r c = b := by
  unfold clearRowCell
  rw [h]

theorem clearRowCell_some (b : Board) (r : Fin 20) (c : Fin 12) (i : Nat)
    (h : b.pieceGrid r c = some i) :
    clearRowCell b r c = { b with
      pieces := b.pieces.set i ((b.pieceAt i).removeTile (r.val : Int) (c.val : Int)),
      pieceGrid := fun r' c' => if r' = r ∧ c' = c then none else b.pieceGrid r' c' } := by
  unfold clearRowCell
  rw [h]

theorem clearRowCell_WF (b : Board) (hWF : WF b) (r : Fin 20) (c : Fin 12) :
    WF (clearRowCell b r c) ∧
    (clearRowCell b r c).pieces.length = b.pieces.length ∧
    (clearRowCell b r c).activeIdx = b.activeIdx := by
  obtain ⟨hC, hVR, hPB⟩ := hWF
  cases hcell : b.pieceGrid r c with
  | none =>
      rw [clearRowCell_none b r c hcell]
      exact ⟨⟨hC, hVR, hPB⟩, rfl, rfl⟩
  | some i =>
      rw [clearRowCell_some b r c i hcell]
      have hilen : i < b.pieces.length := hVR r c i hcell
      have hOcc : (b.pieceAt i).occupies r c := (hC i hilen r c).mpr hcell
      refine ⟨⟨?_, ?_, ?_⟩, ?_, rfl⟩
      · -- consistency
        intro j hj r' c'
        simp only [List.length_set] at hj
        show ((b.pieces.set i ((b.pieceAt i).removeTile (r.val : Int) (c.val : Int))).getD
            j ⟨emptyTG, 0, 0⟩).occupies r' c' ↔
          (if r' = r ∧ c' = c then none else b.pieceGrid r' c') = some j
        by_cases hji : j = i
        · subst hji
          rw [getD_set_self _ _ _ _ hj]
          rw [removeTile_occ_iff]
          by_cases heq : r' = r ∧ c' = c
          · rw [if_pos heq]
            simp [heq]
          · rw [if_neg heq]
            rw [hC j hj r' c']
            simp [heq]
        · have hij : i ≠ j := fun h => hji h.symm
          rw [getD_set_ne _ _ _ _ _ hij]
          by_cases heq : r' = r ∧ c' = c
          · rw [if_pos heq]
            obtain ⟨rfl, rfl⟩ := heq
            constructor
            · intro hocc
              have := (hC j hj r' c').mp hocc
              rw [hcell] at this
              exact absurd (Option.some.inj this) hij
            · intro hnone
              exact Option.noConfusion hnone
          · rw [if_neg heq]
            exact hC j hj r' c'
      · -- valid references
        intro r' c' j hg
        simp only [List.length_set]
        replace hg : (if r' = r ∧ c' = c then none else b.pieceGrid r' c') = some j := hg
        by_cases heq : r' = r ∧ c' = c
        · rw [if_pos heq] at hg
          exact Option.noConfusion hg
        · rw [if_neg heq] at hg
          exact hVR r' c' j hg
      · -- sub-cells in bounds
        intro j hj sr sc ht
        simp only [List.length_set] at hj
        replace ht : ((b.pieces.set i ((b.pieceAt i).removeTile (r.val : Int)
            (c.val : Int))).getD j ⟨emptyTG, 0, 0⟩).tileGrid sr sc = true := ht
        show inBoundsB
          (((b.pieces.set i ((b.pieceAt i).removeTile (r.val : Int) (c.val : Int))).getD
              j ⟨emptyTG, 0, 0⟩).row + (sr.val : Int))
          (((b.pieces.set i ((b.pieceAt i).removeTile (r.val : Int) (c.val : Int))).getD
              j ⟨emptyTG, 0, 0⟩).col + (sc.val : Int)) = true
        by_cases hji : j = i
        · subst hji
          rw [getD_set_self _ _ _ _ hj] at ht ⊢
          rw [removeTile_tileGrid] at ht
          rw [removeTile_row, removeTile_col]
          by_cases hcond : (sr.val : Int) = (r.val : Int) - (b.pieceAt j).row ∧
              (sc.val : Int) = (c.val : Int) - (b.pieceAt j).col
          · rw [if_pos hcond] at ht
            exact absurd ht (by simp)
          · rw [if_neg hcond] at ht
            exact hPB j hj sr sc ht
        · have hij : i ≠ j := fun h => hji h.symm
          rw [getD_set_ne _ _ _ _ _ hij] at ht ⊢
          exact hPB j hj sr sc ht
      · simp [List.length_set]

theorem clearRow_WF (b : Board) (hWF : WF b) (r : Fin 20) :
    WF (clearRow b r) := by
  unfold clearRow
  exact foldl_pres WF _ _ (fun a x _ ha => (clearRowCell_WF a ha r x).1) b hWF

/-! ### Preservation through erase and grid rebuild -/

/-- Two pieces with no common occupied cell. -/
def DisjOcc (p q : Piece) : Prop :=
  ∀ (r : Fin 20) (c : Fin 12), ¬(p.occupies r c ∧ q.occupies r c)

theorem WF_pairwise (b : Board) (hWF : WF b) : b.pieces.Pairwise DisjOcc := by
  obtain ⟨hC, _, _⟩ := hWF
  rw [List.pairwise_iff_get]
  intro i j hij
  intro r c hrc
  obtain ⟨h1, h2⟩ := hrc
  have e1 : b.pieceAt i.val = b.pieces.get i := getD_lt b.pieces i.val _ i.isLt
  have e2 : b.pieceAt j.val = b.pieces.get j := getD_lt b.pieces j.val _ j.isLt
  have g1 : b.pieceGrid r c = some i.val :=
    (hC i.val i.isLt r c).mp (by rw [e1]; exact h1)
  have g2 : b.pieceGrid r c = some j.val :=
    (hC j.val j.isLt r c).mp (by rw [e2]; exact h2)
  have : i.val = j.val := Option.some.inj (g1.symm.trans g2)
  have : i.val < j.val := hij
  omega

theorem WF_mem_bounds (b : Board) (hWF : WF b) (p : Piece) (hp : p ∈ b.pieces) :
    ∀ sr sc : Fin 4, p.tileGrid sr sc = true →
      inBoundsB (p.row + (sr.val : Int)) (p.col + (sc.val : Int)) = true := by
  obtain ⟨n, hn⟩ := List.mem_iff_get.mp hp
  intro sr sc ht
  have e : b.pieceAt n.val = p :=
    (getD_lt b.pieces n.val ⟨emptyTG, 0, 0⟩ n.isLt).trans hn
  have := hWF.2.2 n.val n.isLt sr sc (by rw [e]; exact ht)
  rw [e] at this
  exact this

/-- Any in-bounds integer coordinate pair is a board cell. -/
theorem exists_cell (rr cc : Int) (h : inBoundsB rr cc = true) :
    ∃ (r : Fin 20) (c : Fin 12), rr = (r.val : Int) ∧ cc = (c.val : Int) := by
  rw [inBoundsB_iff] at h
  exact ⟨⟨rr.toNat, by omega⟩, ⟨cc.toNat, by omega⟩,
    (Int.toNat_of_nonneg h.1).symm, (Int.toNat_of_nonneg h.2.2.1).symm⟩

/-- One step of the rebuild fold: re-placing piece `k` of a pairwise
disjoint, in-bounds collection extends the partially rebuilt grid. -/
theorem rebuild_step (P : List Piece) (bIdx : Nat) (k : Nat) (hk : k < P.length)
    (hdisj : ∀ j1 j2, j1 < P.length → j2 < P.length → j1 ≠ j2 →
      DisjOcc (P.getD j1 ⟨emptyTG, 0, 0⟩) (P.getD j2 ⟨emptyTG, 0, 0⟩))
    (hbnd : ∀ j, j < P.length → ∀ sr sc : Fin 4,
      (P.getD j ⟨emptyTG, 0, 0⟩).tileGrid sr sc = true →
      inBoundsB ((P.getD j ⟨emptyTG, 0, 0⟩).row + (sr.val : Int))
        ((P.getD j ⟨emptyTG, 0, 0⟩).col + (sc.val : Int)) = true)
    (s : Board) (hp : s.pieces = P) (ha : s.activeIdx = bIdx)
    (hg : ∀ (r : Fin 20) (c : Fin 12) (j : Nat), s.pieceGrid r c = some j ↔
      (j < k ∧ (P.getD j ⟨emptyTG, 0, 0⟩).occupies r c)) :
    (Piece.moveTo s k (s.pieceAt k).row (s.pieceAt k).col
        (s.pieceAt k).tileGrid).2.pieces = P ∧
    (Piece.moveTo s k (s.pieceAt k).row (s.pieceAt k).col
        (s.pieceAt k).tileGrid).2.activeIdx = bIdx ∧
    (∀ (r : Fin 20) (c : Fin 12) (j : Nat),
      (Piece.moveTo s k (s.pieceAt k).row (s.pieceAt k).col
        (s.pieceAt k).tileGrid).2.pieceGrid r c = some j ↔
      (j < k + 1 ∧ (P.getD j ⟨emptyTG, 0, 0⟩).occupies r c)) := by
  have hpk : s.pieceAt k = P.getD k ⟨emptyTG, 0, 0⟩ := by
    unfold Board.pieceAt
    rw [hp]
  have hval : Piece.validB s k (s.pieceAt k).row (s.pieceAt k).col
      (s.pieceAt k).tileGrid = true := by
    rw [validB_iff]
    intro sr sc ht
    rw [hpk] at ht ⊢
    have hbI := hbnd k hk sr sc ht
    refine ⟨hbI, ?_⟩
    obtain ⟨r0, c0, hr0, hc0⟩ := exists_cell _ _ hbI
    rw [getCell_eq_grid s _ _ r0 c0 hr0 hc0]
    cases hcell : s.pieceGrid r0 c0 with
    | none => exact Or.inl rfl
    | some j =>
        obtain ⟨hjk, hoccj⟩ := (hg r0 c0 j).mp hcell
        exfalso
        have hocck : (P.getD k ⟨emptyTG, 0, 0⟩).occupies r0 c0 :=
          (coversB_iff _ _ _ _ _).mpr ⟨sr, sc, ht, by omega, by omega⟩
        exact hdisj j k (by omega) hk (by omega) r0 c0 ⟨hoccj, hocck⟩
  have e := moveTo_of_valid s k (s.pieceAt k).row (s.pieceAt k).col
    (s.pieceAt k).tileGrid hval
  rw [e]
  refine ⟨?_, ?_, ?_⟩
  · show s.pieces.set k
        ⟨(s.pieceAt k).tileGrid, (s.pieceAt k).row, (s.pieceAt k).col⟩ = P
    rw [hpk, hp]
    exact set_getD_self P k ⟨emptyTG, 0, 0⟩ hk
  · exact ha
  · intro r c j
    show (if coversB (s.pieceAt k).tileGrid (s.pieceAt k).row (s.pieceAt k).col r c
          then some k
          else if coversB (s.pieceAt k).tileGrid (s.pieceAt k).row
              (s.pieceAt k).col r c then none
          else s.pieceGrid r c) = some j ↔ _
    by_cases hcov : coversB (s.pieceAt k).tileGrid (s.pieceAt k).row
        (s.pieceAt k).col r c = true
    · rw [if_pos hcov]
      have hocck : (P.getD k ⟨emptyTG, 0, 0⟩).occupies r c := by
        rw [← hpk]
        exact hcov
      constructor
      · intro h
        have hkj : k = j := Option.some.inj h
        subst hkj
        exact ⟨by omega, hocck⟩
      · rintro ⟨hj1, hoccj⟩
        rcases Nat.lt_succ_iff_lt_or_eq.mp hj1 with hlt | heq
        · exact absurd ⟨hoccj, hocck⟩ (hdisj j k (by omega) hk (by omega) r c)
        · subst heq
          rfl
    · rw [if_neg hcov, if_neg hcov]
      rw [hg r c j]
      constructor
      · rintro ⟨h1, h2⟩
        exact ⟨by omega, h2⟩
      · rintro ⟨h1, h2⟩
        rcases Nat.lt_succ_iff_lt_or_eq.mp h1 with hlt | heq
        · exact ⟨hlt, h2⟩
        · exfalso
          apply hcov
          subst heq
          rw [hpk]
          exact h2

theorem rebuild_WF (b : Board) (hWF : WF b) :
    WF (rebuildGrid (eraseEmptyPieces b)) ∧
    (rebuildGrid (eraseEmptyPieces b)).pieces =
      b.pieces.filter (fun p => !p.hasNoTiles) ∧
    (rebuildGrid (eraseEmptyPieces b)).activeIdx = b.activeIdx := by
  have hpw : (b.pieces.filter (fun p => !p.hasNoTiles)).Pairwise DisjOcc :=
    List.Pairwise.sublist (List.filter_sublist b.pieces) (WF_pairwise b hWF)
  have hdisj : ∀ j1 j2,
      j1 < (b.pieces.filter (fun p => !p.hasNoTiles)).length →
      j2 < (b.pieces.filter (fun p => !p.hasNoTiles)).length → j1 ≠ j2 →
      DisjOcc ((b.pieces.filter (fun p => !p.hasNoTiles)).getD j1 ⟨emptyTG, 0, 0⟩)
        ((b.pieces.filter (fun p => !p.hasNoTiles)).getD j2 ⟨emptyTG, 0, 0⟩) := by
    intro j1 j2 h1 h2 hne
    rcases Nat.lt_or_ge j1 j2 with hlt | hge
    · have := List.pairwise_iff_get.mp hpw ⟨j1, h1⟩ ⟨j2, h2⟩ hlt
      rw [getD_lt _ _ _ h1, getD_lt _ _ _ h2]
      exact this
    · have hlt2 : j2 < j1 := by omega
      have := List.pairwise_iff_get.mp hpw ⟨j2, h2⟩ ⟨j1, h1⟩ hlt2
      rw [getD_lt _ _ _ h1, getD_lt _ _ _ h2]
      intro r c hrc
      exact this r c ⟨hrc.2, hrc.1⟩
  have hbnd : ∀ j, j < (b.pieces.filter (fun p => !p.hasNoTiles)).length →
      ∀ sr sc : Fin 4,
      ((b.pieces.filter (fun p => !p.hasNoTiles)).getD j ⟨emptyTG, 0, 0⟩).tileGrid
        sr sc = true →
      inBoundsB (((b.pieces.filter (fun p => !p.hasNoTiles)).getD j
          ⟨emptyTG, 0, 0⟩).row + (sr.val : Int))
        (((b.pieces.filter (fun p => !p.hasNoTiles)).getD j
          ⟨emptyTG, 0, 0⟩).col + (sc.val : Int)) = true := by
    intro j hj sr sc ht
    exact WF_mem_bounds b hWF _
      (List.mem_of_mem_filter (getD_mem _ j _ hj)) sr sc ht
  have aux : ∀ k, k ≤ (b.pieces.filter (fun p => !p.hasNoTiles)).length →
      ((List.range k).foldl
        (fun b' i => (Piece.moveTo b' i (b'.pieceAt i).row (b'.pieceAt i).col
          (b'.pieceAt i).tileGrid).2)
        { eraseEmptyPieces b with pieceGrid := fun _ _ => none }).pieces =
          b.pieces.filter (fun p => !p.hasNoTiles) ∧
      ((List.range k).foldl
        (fun b' i => (Piece.moveTo b' i (b'.pieceAt i).row (b'.pieceAt i).col
          (b'.pieceAt i).tileGrid).2)
        { eraseEmptyPieces b with pieceGrid := fun _ _ => none }).activeIdx =
          b.activeIdx ∧
      (∀ (r : Fin 20) (c : Fin 12) (j : Nat),
        ((List.range k).foldl
          (fun b' i => (Piece.moveTo b' i (b'.pieceAt i).row (b'.pieceAt i).col
            (b'.pieceAt i).tileGrid).2)
          { eraseEmptyPieces b with pieceGrid := fun _ _ => none }).pieceGrid
            r c = some j ↔
        (j < k ∧ ((b.pieces.filter (fun p => !p.hasNoTiles)).getD j
          ⟨emptyTG, 0, 0⟩).occupies r c)) := by
    intro k
    induction k with
    | zero =>
        intro _
        refine ⟨rfl, rfl, ?_⟩
        intro r c j
        simp
    | succ k ih =>
        intro hk1
        have hk : k < (b.pieces.filter (fun p => !p.hasNoTiles)).length := by
          omega
        obtain ⟨hp, ha, hg⟩ := ih (by omega)
        rw [List.range_succ, List.foldl_append]
        simp only [List.foldl_cons, List.foldl_nil]
        exact rebuild_step _ b.activeIdx k hk hdisj hbnd _ hp ha hg
  obtain ⟨hp, ha, hg⟩ := aux _ (le_refl _)
  have hp' : (rebuildGrid (eraseEmptyPieces b)).pieces =
      b.pieces.filter (fun p => !p.hasNoTiles) := hp
  have ha' : (rebuildGrid (eraseEmptyPieces b)).activeIdx = b.activeIdx := ha
  have hg' : ∀ (r : Fin 20) (c : Fin 12) (j : Nat),
      (rebuildGrid (eraseEmptyPieces b)).pieceGrid r c = some j ↔
      (j < (b.pieces.filter (fun p => !p.hasNoTiles)).length ∧
        ((b.pieces.filter (fun p => !p.hasNoTiles)).getD j
          ⟨emptyTG, 0, 0⟩).occupies r c) := hg
  refine ⟨⟨?_, ?_, ?_⟩, hp', ha'⟩
  · intro i hi r c
    rw [hp'] at hi
    show ((rebuildGrid (eraseEmptyPieces b)).pieces.getD i ⟨emptyTG, 0, 0⟩).occupies
        r c ↔ _
    rw [hp', hg' r c i]
    exact ⟨fun h => ⟨hi, h⟩, fun h => h.2⟩
  · intro r c i hgrc
    rw [hp']
    exact ((hg' r c i).mp hgrc).1
  · intro i hi sr sc ht
    rw [hp'] at hi
    replace ht : ((rebuildGrid (eraseEmptyPieces b)).pieces.getD i
        ⟨emptyTG, 0, 0⟩).tileGrid sr sc = true := ht
    rw [hp'] at ht
    show inBoundsB
      (((rebuildGrid (eraseEmptyPieces b)).pieces.getD i ⟨emptyTG, 0, 0⟩).row +
        (sr.val : Int))
      (((rebuildGrid (eraseEmptyPieces b)).pieces.getD i ⟨emptyTG, 0, 0⟩).col +
        (sc.val : Int)) = true
    rw [hp']
    exact hbnd i hi sr sc ht

/-! ### Preservation through settling -/

theorem settlePiece_WF (fuel : Nat) (b : Board) (hWF : WF b) (i : Nat)
    (hi : i < b.pieces.length) :
    WF (settlePiece fuel b i) ∧
    (settlePiece fuel b i).pieces.length = b.pieces.length ∧
    (settlePiece fuel b i).activeIdx = b.activeIdx := by
  induction fuel generalizing b with
  | zero => exact ⟨hWF, rfl, rfl⟩
  | succ fuel ih =>
      show WF (if (Piece.move b i Direction.DOWN).1 then
          (Piece.move b i Direction.DOWN).2
        else settlePiece fuel (Piece.move b i Direction.DOWN).2 i) ∧
        (if (Piece.move b i Direction.DOWN).1 then
            (Piece.move b i Direction.DOWN).2
          else settlePiece fuel (Piece.move b i Direction.DOWN).2 i).pieces.length =
          b.pieces.length ∧
        (if (Piece.move b i Direction.DOWN).1 then
            (Piece.move b i Direction.DOWN).2
          else settlePiece fuel (Piece.move b i Direction.DOWN).2 i).activeIdx =
          b.activeIdx
      obtain ⟨hW, hL, hA⟩ := move_WF b hWF i hi Direction.DOWN
      by_cases hstop : (Piece.move b i Direction.DOWN).1 = true
      · rw [if_pos hstop]
        exact ⟨hW, hL, hA⟩
      · rw [if_neg hstop]
        obtain ⟨hW2, hL2, hA2⟩ := ih (Piece.move b i Direction.DOWN).2 hW
          (by rw [hL]; exact hi)
        exact ⟨hW2, hL2.trans hL, hA2.trans hA⟩

theorem settleAll_WF (b : Board) (hWF : WF b) :
    WF (settleAll b) := by
  unfold settleAll
  have h := foldl_pres
    (fun s => WF s ∧ s.pieces.length = b.pieces.length)
    (fun b' i => settlePiece 24 b' i) (List.range b.pieces.length)
    (fun a x hx ha => by
      have hxlen : x < a.pieces.length := by
        rw [ha.2]
        exact List.mem_range.mp hx
      obtain ⟨hW, hL, _⟩ := settlePiece_WF 24 a ha.1 x hxlen
      exact ⟨hW, hL.trans ha.2⟩)
    b ⟨hWF, rfl⟩
  exact h.1

/-! ### Preservation through collapse and update -/

theorem collapseFullRows_WF (b : Board) (hWF : WF b) :
    WF b.collapseFullRows := by
  unfold Board.collapseFullRows
  apply foldl_pres WF _ _ _ b hWF
  intro a r _ ha
  show WF (if (a.isRowFull r).1 then
      settleAll (rebuildGrid (eraseEmptyPieces (clearRow (a.isRowFull r).2 r)))
    else (a.isRowFull r).2)
  obtain ⟨hpg, hpp, _⟩ := isRowFull_parts a r
  have hWFr : WF (a.isRowFull r).2 := WF_congr a _ hpg hpp ha
  by_cases hfull : (a.isRowFull r).1 = true
  · rw [if_pos hfull]
    exact settleAll_WF _ ((rebuild_WF _ (clearRow_WF _ hWFr r)).1)
  · rw [if_neg hfull]
    exact hWFr

/-- A successful spawn placement (`moveTo` of the just-appended fresh
piece at the spawn anchor) yields a well-formed board. -/
theorem spawn_ok_WF (b2 : Board) (hWF : WF b2) (tg : TileGrid)
    (hs : (Piece.moveTo
        { b2 with
          pieces := b2.pieces ++ [⟨tg, SPAWN_ROW, SPAWN_COL⟩],
          activeIdx := b2.pieces.length }
        b2.pieces.length SPAWN_ROW SPAWN_COL tg).1 = true) :
    WF (Piece.moveTo
        { b2 with
          pieces := b2.pieces ++ [⟨tg, SPAWN_ROW, SPAWN_COL⟩],
          activeIdx := b2.pieces.length }
        b2.pieces.length SPAWN_ROW SPAWN_COL tg).2 ∧
    (Piece.moveTo
        { b2 with
          pieces := b2.pieces ++ [⟨tg, SPAWN_ROW, SPAWN_COL⟩],
          activeIdx := b2.pieces.length }
        b2.pieces.length SPAWN_ROW SPAWN_COL tg).2.pieces.length =
      b2.pieces.length + 1 ∧
    (Piece.moveTo
        { b2 with
          pieces := b2.pieces ++ [⟨tg, SPAWN_ROW, SPAWN_COL⟩],
          activeIdx := b2.pieces.length }
        b2.pieces.length SPAWN_ROW SPAWN_COL tg).2.activeIdx =
      b2.pieces.length := by
  obtain ⟨hC, hVR, hPB⟩ := hWF
  have hval : Piece.validB
      { b2 with
        pieces := b2.pieces ++ [⟨tg, SPAWN_ROW, SPAWN_COL⟩],
        activeIdx := b2.pieces.length }
      b2.pieces.length SPAWN_ROW SPAWN_COL tg = true := by
    rw [moveTo_fst] at hs
    exact hs
  have hAt : Board.pieceAt
      { b2 with
        pieces := b2.pieces ++ [⟨tg, SPAWN_ROW, SPAWN_COL⟩],
        activeIdx := b2.pieces.length } b2.pieces.length =
      ⟨tg, SPAWN_ROW, SPAWN_COL⟩ :=
    getD_concat_self b2.pieces _ _
  have hlen3 : ({ b2 with
      pieces := b2.pieces ++ [⟨tg, SPAWN_ROW, SPAWN_COL⟩],
      activeIdx := b2.pieces.length } : Board).pieces.length =
      b2.pieces.length + 1 := by
    simp
  rw [moveTo_of_valid _ _ _ _ _ hval]
  refine ⟨?_, ?_, ?_⟩
  · apply place_WF _ b2.pieces.length (by rw [hlen3]; omega)
      SPAWN_ROW SPAWN_COL tg hval
    · -- consistency of the other pieces
      intro j hj hjne r c
      rw [hlen3] at hj
      have hjlt : j < b2.pieces.length := by omega
      have hAtj : Board.pieceAt
          { b2 with
            pieces := b2.pieces ++ [⟨tg, SPAWN_ROW, SPAWN_COL⟩],
            activeIdx := b2.pieces.length } j = b2.pieceAt j :=
        getD_append_left b2.pieces _ j _ hjlt
      rw [hAtj]
      exact hC j hjlt r c
    · -- bounds of the other pieces
      intro j hj hjne sr sc
      rw [hlen3] at hj
      have hjlt : j < b2.pieces.length := by omega
      have hAtj : Board.pieceAt
          { b2 with
            pieces := b2.pieces ++ [⟨tg, SPAWN_ROW, SPAWN_COL⟩],
            activeIdx := b2.pieces.length } j = b2.pieceAt j :=
        getD_append_left b2.pieces _ j _ hjlt
      rw [hAtj]
      exact hPB j hjlt sr sc
    · -- valid references
      intro r c j hg
      rw [hlen3]
      have := hVR r c j hg
      omega
    · -- grid references to the fresh index cannot exist yet
      intro r c hg
      have := hVR r c b2.pieces.length hg
      omega
    · -- the fresh piece's cells are free or self on the grid
      intro r c hocc
      rw [hAt] at hocc
      exact valid_covered _ _ _ _ _ hval r c hocc
    · rw [hAt]
  · simp
  · rfl

set_option maxRecDepth 4000 in
theorem update_WF (b : Board) (hWF : WF b) (hA : b.activeIdx < b.pieces.length)
    (d : Direction) (tg : TileGrid) :
    WF (b.update d tg).2 ∧
    ((b.update d tg).1 = true →
      (b.update d tg).2.activeIdx < (b.update d tg).2.pieces.length) := by
  by_cases hup : d = Direction.UP
  · subst hup
    have e : b.update Direction.UP tg = (true, Piece.rotate b b.activeIdx) := by
      simp [Board.update]
    rw [e]
    obtain ⟨hW, hL, hAi⟩ := rotate_WF b hWF b.activeIdx hA
    refine ⟨hW, fun _ => ?_⟩
    rw [hL, hAi]
    exact hA
  · obtain ⟨hWm, hLm, hAm⟩ := move_WF b hWF b.activeIdx hA d
    have hWb2 : WF (Piece.move b b.activeIdx d).2.collapseFullRows :=
      collapseFullRows_WF _ hWm
    simp only [Board.update, if_neg hup]
    split
    · next hm =>
        split
        · next hs =>
            obtain ⟨hW, hL, hAi⟩ := spawn_ok_WF _ hWb2 tg hs
            refine ⟨hW, fun _ => ?_⟩
            rw [hL, hAi]
            omega
        · next hs =>
            have hs' : (Piece.moveTo
                { (Piece.move b b.activeIdx d).2.collapseFullRows with
                  pieces := (Piece.move b b.activeIdx d).2.collapseFullRows.pieces
                    ++ [⟨tg, SPAWN_ROW, SPAWN_COL⟩],
                  activeIdx :=
                    (Piece.move b b.activeIdx d).2.collapseFullRows.pieces.length }
                (Piece.move b b.activeIdx d).2.collapseFullRows.pieces.length
                SPAWN_ROW SPAWN_COL tg).1 = false := by
              simpa using hs
            rw [moveTo_fail_snd _ _ _ _ _ hs']
            refine ⟨?_, ?_⟩
            · refine WF_congr ((Piece.move b b.activeIdx d).2.collapseFullRows) _
                ?_ ?_ hWb2
              · rfl
              show ((Piece.move b b.activeIdx d).2.collapseFullRows.pieces ++
                [(⟨tg, SPAWN_ROW, SPAWN_COL⟩ : Piece)]).dropLast =
                (Piece.move b b.activeIdx d).2.collapseFullRows.pieces
              exact List.dropLast_concat
            · intro hfalse
              exact absurd hfalse (by simp)
    · next hm =>
        refine ⟨hWm, fun _ => ?_⟩
        rw [hLm, hAm]
        exact hA

/-! ### Claim theorems -/

/-- C1, counterexample to the claim as stated: the initial board is
reachable (empty update sequence), yet after an `update` with LEFT —
whose relocation fails because the piece already touches the left wall —
the grid and the piece collection are not consistent: the constructor
never wrote the first piece into the grid, so its cells are occupied by
the piece while the grid holds no reference to it. -/
theorem C1_counterexample :
    Reachable (initialBoard pieceI) ∧
    ¬ Consistent ((initialBoard pieceI).update Direction.LEFT pieceI).2 :=
  ⟨Reachable.init pieceI (by simp [DEFAULT_PIECES]), by decide⟩

/-- C1 (amended): from any well-formed state (grid/piece consistency,
valid grid references, in-bounds pieces) whose active index is live,
every `Board::update` call — any direction, any spawned catalog
footprint — leaves the grid and the piece collection bidirectionally
consistent.  The original claim fails only because the initial board's
piece is not yet registered on the grid (see the counterexample). -/
theorem C1_theorem (b : Board) (hWF : WF b)
    (hA : b.activeIdx < b.pieces.length) (d : Direction) (tg : TileGrid) :
    Consistent (b.update d tg).2 :=
  (update_WF b hWF hA d tg).1.1

/-- C1 witness: the amended theorem applied to a concrete well-formed
single-piece board and a DOWN update. -/
theorem C1_witness :
    WF (placedBoard pieceI 0 0) ∧
    (placedBoard pieceI 0 0).activeIdx < (placedBoard pieceI 0 0).pieces.length ∧
    Consistent ((placedBoard pieceI 0 0).update Direction.DOWN pieceI).2 :=
  ⟨by decide, by decide,
    C1_theorem (placedBoard pieceI 0 0) (by decide) (by decide)
      Direction.DOWN pieceI⟩

/-- C2: `Piece::moveTo` is atomic on failure — if any occupied sub-cell
of the candidate footprint lands out of bounds or on a cell owned by a
different piece, it returns false with the board (grid, anchor,
footprint) exactly unchanged; and if every occupied sub-cell is in
bounds and lands on a free cell or one owned by this same piece, the
relocation succeeds. -/
theorem C2_theorem (b : Board) (i : Nat) (nr nc : Int) (ntg : TileGrid) :
    ((∃ sr sc : Fin 4, ntg sr sc = true ∧
        (inBoundsB (nr + (sr.val : Int)) (nc + (sc.val : Int)) = false ∨
         ∃ j, j ≠ i ∧
           getCell b (nr + (sr.val : Int)) (nc + (sc.val : Int)) = some j)) →
      Piece.moveTo b i nr nc ntg = (false, b)) ∧
    ((∀ sr sc : Fin 4, ntg sr sc = true →
        inBoundsB (nr + (sr.val : Int)) (nc + (sc.val : Int)) = true ∧
        (getCell b (nr + (sr.val : Int)) (nc + (sc.val : Int)) = none ∨
         getCell b (nr + (sr.val : Int)) (nc + (sc.val : Int)) = some i)) →
      (Piece.moveTo b i nr nc ntg).1 = true) := by
  constructor
  · rintro ⟨sr, sc, ht, hbad⟩
    apply moveTo_of_not_valid
    by_cases hval : Piece.validB b i nr nc ntg = true
    · exfalso
      obtain ⟨hbnd, hcell⟩ := (validB_iff b i nr nc ntg).mp hval sr sc ht
      rcases hbad with hoob | ⟨j, hji, hj⟩
      · rw [hbnd] at hoob
        exact Bool.noConfusion hoob
      · rcases hcell with h0 | h0 <;> rw [hj] at h0
        · exact Option.noConfusion h0
        · exact hji (Option.some.inj h0)
    · simpa using hval
  · intro hgood
    rw [moveTo_fst]
    exact (validB_iff b i nr nc ntg).mpr hgood

/-- C2 witness: moving the I piece one column past the left wall fails
and returns the board byte-for-byte unchanged. -/
theorem C2_witness :
    Piece.moveTo (placedBoard pieceI 0 0) 0 0 (-1) pieceI =
      (false, placedBoard pieceI 0 0) :=
  (C2_theorem (placedBoard pieceI 0 0) 0 0 (-1) pieceI).1
    ⟨0, 0, by decide, Or.inl (by decide)⟩

/-- C3, counterexample to the claim as stated: on a concrete board the
one-cell RIGHT relocation succeeds, yet `Piece::move` returns false —
contradicting "for LEFT or RIGHT it returns true iff the relocation
succeeded". -/
theorem C3_counterexample :
    (Piece.moveTo (placedBoard pieceI 0 0) 0 0 1 pieceI).1 = true ∧
    (Piece.move (placedBoard pieceI 0 0) 0 Direction.RIGHT).1 = false := by
  decide

/-- C3 (amended): `Piece::move` returns
`!moveTo(...) && direction == DOWN`: it returns true iff the direction
is DOWN and the one-row-down relocation failed (the settle signal); for
every other direction it returns false regardless of whether the
relocation succeeded. -/
theorem C3_theorem (b : Board) (i : Nat) (d : Direction) :
    ((Piece.move b i d).1 = true ↔
      (d = Direction.DOWN ∧
        (Piece.moveTo b i ((b.pieceAt i).row + 1) (b.pieceAt i).col
          (b.pieceAt i).tileGrid).1 = false)) ∧
    (d ≠ Direction.DOWN → (Piece.move b i d).1 = false) := by
  constructor
  · cases d <;> simp [Piece.move]
  · intro hd
    cases d <;> first
      | exact absurd rfl hd
      | simp [Piece.move]

/-- C3 witness: the amended theorem applied at a concrete board where
the RIGHT move succeeds but `move` still returns false. -/
theorem C3_witness :
    (Piece.move (placedBoard pieceI 0 0) 0 Direction.RIGHT).1 = false :=
  (C3_theorem (placedBoard pieceI 0 0) 0 Direction.RIGHT).2 (by decide)

/-- C5: the rotation transform satisfies
`destination[c][bound-1-r] = source[r][c]` on the 4x4 footprint, and
`Piece::rotate` attempts the relocation at the unchanged anchor: on
failure the whole board (footprint and anchor included) is unchanged; on
success the piece carries the rotated footprint at the same anchor. -/
theorem C5_theorem (b : Board) (i : Nat) (hi : i < b.pieces.length) :
    (∀ (tg : TileGrid) (r c : Fin 4), rotateGrid tg c (Fin.rev r) = tg r c) ∧
    ((Piece.moveTo b i (b.pieceAt i).row (b.pieceAt i).col
        (rotateGrid (b.pieceAt i).tileGrid)).1 = false →
      Piece.rotate b i = b) ∧
    ((Piece.moveTo b i (b.pieceAt i).row (b.pieceAt i).col
        (rotateGrid (b.pieceAt i).tileGrid)).1 = true →
      ((Piece.rotate b i).pieceAt i).tileGrid =
        rotateGrid (b.pieceAt i).tileGrid ∧
      ((Piece.rotate b i).pieceAt i).row = (b.pieceAt i).row ∧
      ((Piece.rotate b i).pieceAt i).col = (b.pieceAt i).col) := by
  refine ⟨?_, ?_, ?_⟩
  · intro tg r c
    simp [rotateGrid, Fin.rev_rev]
  · intro h
    rw [moveTo_fst] at h
    exact rotate_of_not_valid b i h
  · intro h
    rw [moveTo_fst] at h
    rw [rotate_of_valid b i hi h]
    have hAt : Board.pieceAt
        { b with
          pieceGrid :=
            writeCells
              (writeCells b.pieceGrid (b.pieceAt i).tileGrid (b.pieceAt i).row
                (b.pieceAt i).col none)
              (rotateGrid (b.pieceAt i).tileGrid) (b.pieceAt i).row
              (b.pieceAt i).col (some i),
          pieces := b.pieces.set i
            ⟨rotateGrid (b.pieceAt i).tileGrid, (b.pieceAt i).row,
              (b.pieceAt i).col⟩ } i =
        ⟨rotateGrid (b.pieceAt i).tileGrid, (b.pieceAt i).row,
          (b.pieceAt i).col⟩ :=
      getD_set_self _ _ _ _ hi
    rw [hAt]
    exact ⟨rfl, rfl, rfl⟩

/-- C5 witness: rotating the I piece wedged against the right wall (the
rotated vertical bar would land in column 12) is a silent no-op. -/
theorem C5_witness :
    0 < (placedBoard pieceI 0 9).pieces.length ∧
    Piece.rotate (placedBoard pieceI 0 9) 0 = placedBoard pieceI 0 9 :=
  ⟨by decide, (C5_theorem (placedBoard pieceI 0 9) 0 (by decide)).2.1 (by decide)⟩

/-- C6: applying the catalog rotation transform four times to any 4x4
footprint yields the original footprint. -/
theorem C6_theorem (tg : TileGrid) :
    rotateGrid (rotateGrid (rotateGrid (rotateGrid tg))) = tg := by
  funext r c
  simp [rotateGrid, Fin.rev_rev]

theorem update_spawn_eq (b : Board) (tg : TileGrid) (d : Direction)
    (hd : ¬ d = Direction.UP) (hm : (Piece.move b b.activeIdx d).1 = true) :
    b.update d tg =
      (if (spawnAttempt ((Piece.move b b.activeIdx d).2.collapseFullRows) tg).1
       then (true,
         (spawnAttempt ((Piece.move b b.activeIdx d).2.collapseFullRows) tg).2)
       else (false,
         { (spawnAttempt ((Piece.move b b.activeIdx d).2.collapseFullRows) tg).2
           with pieces :=
             (spawnAttempt ((Piece.move b b.activeIdx d).2.collapseFullRows)
               tg).2.pieces.dropLast })) := by
  simp [Board.update, hd, hm, spawnAttempt]

theorem spawn_ok_parts (b2 : Board) (tg : TileGrid)
    (hs : (spawnAttempt b2 tg).1 = true) :
    (spawnAttempt b2 tg).2.pieces = b2.pieces ++ [⟨tg, SPAWN_ROW, SPAWN_COL⟩] ∧
    (spawnAttempt b2 tg).2.activeIdx = b2.pieces.length := by
  unfold spawnAttempt at hs ⊢
  rw [moveTo_fst] at hs
  rw [moveTo_of_valid _ _ _ _ _ hs]
  have hAt : Board.pieceAt
      { b2 with
        pieces := b2.pieces ++ [⟨tg, SPAWN_ROW, SPAWN_COL⟩],
        activeIdx := b2.pieces.length } b2.pieces.length =
      ⟨tg, SPAWN_ROW, SPAWN_COL⟩ :=
    getD_concat_self b2.pieces _ _
  constructor
  · rw [hAt]
    show (b2.pieces ++ [(⟨tg, SPAWN_ROW, SPAWN_COL⟩ : Piece)]).set
        b2.pieces.length ⟨tg, SPAWN_ROW, SPAWN_COL⟩ =
      b2.pieces ++ [⟨tg, SPAWN_ROW, SPAWN_COL⟩]
    calc (b2.pieces ++ [(⟨tg, SPAWN_ROW, SPAWN_COL⟩ : Piece)]).set
          b2.pieces.length ⟨tg, SPAWN_ROW, SPAWN_COL⟩
        = (b2.pieces ++ [(⟨tg, SPAWN_ROW, SPAWN_COL⟩ : Piece)]).set
          b2.pieces.length
          ((b2.pieces ++ [(⟨tg, SPAWN_ROW, SPAWN_COL⟩ : Piece)]).getD
            b2.pieces.length ⟨emptyTG, 0, 0⟩) := by
          rw [getD_concat_self]
      _ = b2.pieces ++ [(⟨tg, SPAWN_ROW, SPAWN_COL⟩ : Piece)] :=
          set_getD_self _ _ _ (by simp)
  · rfl

/-- C4: when `Piece::move` signals settling on a DOWN command,
`Board::update` runs `collapseFullRows` and spawns a fresh piece at the
fixed spawn anchor: update returns false iff the fresh piece's initial
placement is illegal, in which case no new piece remains in the
collection; otherwise the fresh piece (footprint `tg`, spawn anchor)
is appended and becomes the active piece, and update returns true. -/
theorem C4_theorem (b : Board) (tg : TileGrid)
    (h : (Piece.move b b.activeIdx Direction.DOWN).1 = true) :
    ((b.update Direction.DOWN tg).1 = false ↔
      (spawnAttempt ((Piece.move b b.activeIdx Direction.DOWN).2.collapseFullRows)
        tg).1 = false) ∧
    ((b.update Direction.DOWN tg).1 = false →
      (b.update Direction.DOWN tg).2.pieces =
        (Piece.move b b.activeIdx Direction.DOWN).2.collapseFullRows.pieces) ∧
    ((b.update Direction.DOWN tg).1 = true →
      (b.update Direction.DOWN tg).2.activeIdx =
        (Piece.move b b.activeIdx Direction.DOWN).2.collapseFullRows.pieces.length ∧
      (b.update Direction.DOWN tg).2.pieces =
        (Piece.move b b.activeIdx Direction.DOWN).2.collapseFullRows.pieces ++
          [⟨tg, SPAWN_ROW, SPAWN_COL⟩] ∧
      Board.pieceAt (b.update Direction.DOWN tg).2
          (b.update Direction.DOWN tg).2.activeIdx =
        ⟨tg, SPAWN_ROW, SPAWN_COL⟩) := by
  have e := update_spawn_eq b tg Direction.DOWN (by decide) h
  by_cases hs : (spawnAttempt
      ((Piece.move b b.activeIdx Direction.DOWN).2.collapseFullRows) tg).1 = true
  · rw [e, if_pos hs]
    obtain ⟨hp, ha⟩ := spawn_ok_parts _ tg hs
    refine ⟨?_, ?_, ?_⟩
    · constructor
      · intro hfalse
        exact absurd hfalse (by simp)
      · intro hsf
        rw [hs] at hsf
        exact Bool.noConfusion hsf
    · intro hfalse
      exact absurd hfalse (by simp)
    · intro _
      refine ⟨ha, hp, ?_⟩
      show ((spawnAttempt
          ((Piece.move b b.activeIdx Direction.DOWN).2.collapseFullRows)
          tg).2.pieces).getD
        ((spawnAttempt ((Piece.move b b.activeIdx Direction.DOWN).2.collapseFullRows)
          tg).2.activeIdx) ⟨emptyTG, 0, 0⟩ = ⟨tg, SPAWN_ROW, SPAWN_COL⟩
      rw [hp, ha]
      exact getD_concat_self _ _ _
  · have hs' : (spawnAttempt
        ((Piece.move b b.activeIdx Direction.DOWN).2.collapseFullRows) tg).1 =
        false := by
      simpa using hs
    have e2 : (spawnAttempt
        ((Piece.move b b.activeIdx Direction.DOWN).2.collapseFullRows) tg).2 =
        { (Piece.move b b.activeIdx Direction.DOWN).2.collapseFullRows with
          pieces :=
            (Piece.move b b.activeIdx Direction.DOWN).2.collapseFullRows.pieces
              ++ [⟨tg, SPAWN_ROW, SPAWN_COL⟩],
          activeIdx :=
            (Piece.move b b.activeIdx Direction.DOWN).2.collapseFullRows.pieces.length } :=
      moveTo_fail_snd _ _ _ _ _ hs'
    rw [e, if_neg hs]
    refine ⟨?_, ?_, ?_⟩
    · exact ⟨fun _ => hs', fun _ => rfl⟩
    · intro _
      show ((spawnAttempt
          ((Piece.move b b.activeIdx Direction.DOWN).2.collapseFullRows)
          tg).2.pieces).dropLast = _
      rw [e2]
      exact List.dropLast_concat
    · intro htrue
      exact absurd htrue (by simp)

/-- C4 witness: a board whose I piece sits on the bottom row settles on
the next DOWN; the theorem then applies, and its game-over criterion is
exactly the failure of the fresh piece's initial placement. -/
theorem C4_witness :
    (Piece.move (placedBoard pieceI 19 0) (placedBoard pieceI 19 0).activeIdx
      Direction.DOWN).1 = true ∧
    (((placedBoard pieceI 19 0).update Direction.DOWN pieceI).1 = false ↔
      (spawnAttempt ((Piece.move (placedBoard pieceI 19 0)
          (placedBoard pieceI 19 0).activeIdx
          Direction.DOWN).2.collapseFullRows) pieceI).1 = false) :=
  ⟨by decide, (C4_theorem (placedBoard pieceI 19 0) pieceI (by decide)).1⟩

theorem isRowFull_pos (b : Board) (r : Fin 20)
    (h : ∀ c : Fin 12, b.pieceGrid r c ≠ none) :
    b.isRowFull r = (true, { b with rowsCompleted := b.rowsCompleted + 1 }) := by
  unfold Board.isRowFull
  rw [if_pos h]

theorem isRowFull_neg (b : Board) (r : Fin 20)
    (h : ¬ ∀ c : Fin 12, b.pieceGrid r c ≠ none) :
    b.isRowFull r = (false, b) := by
  unfold Board.isRowFull
  rw [if_neg h]

/-- C7: `Board::isRowFull` returns true iff every one of the 12 columns
of the row has a grid owner; it increments `rowsCompleted` exactly on a
true return (so a second call on the unchanged still-full row increments
again, giving +2), and on a false return the board — counter included —
is unchanged. -/
theorem C7_theorem (b : Board) (r : Fin 20) :
    ((b.isRowFull r).1 = true ↔ ∀ c : Fin 12, b.pieceGrid r c ≠ none) ∧
    ((b.isRowFull r).1 = true →
      (b.isRowFull r).2.rowsCompleted = b.rowsCompleted + 1 ∧
      ((b.isRowFull r).2.isRowFull r).2.rowsCompleted = b.rowsCompleted + 2) ∧
    ((b.isRowFull r).1 = false → (b.isRowFull r).2 = b) := by
  by_cases hfull : ∀ c : Fin 12, b.pieceGrid r c ≠ none
  · rw [isRowFull_pos b r hfull]
    have h2 : Board.isRowFull { b with rowsCompleted := b.rowsCompleted + 1 } r =
        (true, { b with rowsCompleted := b.rowsCompleted + 1 + 1 }) :=
      isRowFull_pos _ r hfull
    refine ⟨by simp [hfull], ?_, ?_⟩
    · intro _
      refine ⟨rfl, ?_⟩
      show (Board.isRowFull { b with rowsCompleted := b.rowsCompleted + 1 } r).2.rowsCompleted =
        b.rowsCompleted + 2
      rw [h2]
    · intro hfalse
      exact absurd hfalse (by simp)
  · rw [isRowFull_neg b r hfull]
    refine ⟨?_, ?_, fun _ => rfl⟩
    · constructor
      · intro hfalse
        exact absurd hfalse (by simp)
      · intro hf
        exact absurd hf hfull
    · intro htrue
      exact absurd htrue (by simp)

/-- C7 witness: on a board whose row 19 is completely owned, two
consecutive `isRowFull` calls increment the counter twice. -/
theorem C7_witness :
    (c7Board.isRowFull 19).1 = true ∧
    ((c7Board.isRowFull 19).2.isRowFull 19).2.rowsCompleted =
      c7Board.rowsCompleted + 2 :=
  ⟨by decide, ((C7_theorem c7Board 19).2.1 (by decide)).2⟩

/-- C8: `Piece::removeTile` never changes the anchor; it zeroes exactly
the footprint sub-cell whose offset matches the requested cell (so the
occupied sub-cell is cleared when the cell is occupied by the piece),
and whenever no set sub-cell matches — including every offset outside
the 4x4 window, where the total embedding's guarding read yields false —
the piece is returned completely unchanged. -/
theorem C8_theorem (p : Piece) (rr cc : Int) :
    ((Piece.removeTile p rr cc).row = p.row ∧
     (Piece.removeTile p rr cc).col = p.col) ∧
    (∀ a b : Fin 4, (Piece.removeTile p rr cc).tileGrid a b =
      if (a.val : Int) = rr - p.row ∧ (b.val : Int) = cc - p.col then false
      else p.tileGrid a b) ∧
    ((∀ sr sc : Fin 4, ¬(p.tileGrid sr sc = true ∧
        (sr.val : Int) = rr - p.row ∧ (sc.val : Int) = cc - p.col)) →
      Piece.removeTile p rr cc = p) := by
  refine ⟨⟨removeTile_row p rr cc, removeTile_col p rr cc⟩,
    fun a b => removeTile_tileGrid p rr cc a b, ?_⟩
  intro hno
  have hgt : getTile p.tileGrid (rr - p.row) (cc - p.col) = false := by
    by_cases hw : getTile p.tileGrid (rr - p.row) (cc - p.col) = true
    · obtain ⟨sr, sc, ht, h1, h2⟩ := (getTile_iff _ _ _).mp hw
      exact absurd ⟨ht, h1.symm, h2.symm⟩ (hno sr sc)
    · simpa using hw
  simp [Piece.removeTile, hgt]

/-- C8 witness: removing board cell (5,5) from the I piece anchored at
(0,0) — an offset outside its footprint window — is a no-op. -/
theorem C8_witness :
    Piece.removeTile ⟨pieceI, 0, 0⟩ 5 5 = ⟨pieceI, 0, 0⟩ :=
  (C8_theorem ⟨pieceI, 0, 0⟩ 5 5).2.2 (by decide)

set_option maxRecDepth 200000 in
/-- C9, counterexample to the claim as stated: in the 20-MOVE_DOWN
scenario the 20th update does return true, but the freshly spawned
active piece sits at the code's fixed spawn anchor (0,0), not at (0,4)
as the claim asserts — its anchor column is 0. -/
theorem C9_counterexample :
    ((c9Seq 19).update Direction.DOWN pieceI).1 = true ∧
    ((c9Seq 20).pieceAt (c9Seq 20).activeIdx).col ≠ 4 := by
  decide

set_option maxRecDepth 200000 in
/-- C9 (amended): starting from an I piece at anchor (0,4) on an empty
board, each of the first 19 MOVE_DOWN updates lowers the anchor by one
row (piece at row k after k updates), reaching the last legal row 19;
the 20th DOWN signals settling (`move` returns true), the 20th update
returns true, and the fresh active piece sits at the code's spawn anchor
(0,0) — not (0,4) — while the settled piece stays at (19,4). -/
theorem C9_theorem :
    (∀ k, k < 20 → ((c9Seq k).pieceAt 0).row = (k : Int) ∧
      ((c9Seq k).pieceAt 0).col = 4) ∧
    (Piece.move (c9Seq 19) (c9Seq 19).activeIdx Direction.DOWN).1 = true ∧
    ((c9Seq 19).update Direction.DOWN pieceI).1 = true ∧
    (c9Seq 20).pieces.length = 2 ∧
    ((c9Seq 20).pieceAt 0).row = 19 ∧ ((c9Seq 20).pieceAt 0).col = 4 ∧
    (c9Seq 20).activeIdx = 1 ∧
    ((c9Seq 20).pieceAt 1).row = SPAWN_ROW ∧
    ((c9Seq 20).pieceAt 1).col = SPAWN_COL := by
  decide

set_option maxRecDepth 200000 in
/-- C10: a concrete board satisfying the grid/piece consistency
invariant (with valid references and in-bounds pieces) on which
`collapseFullRows` returns with a floating piece: row 19 is full; after
the clear, the single-pass settle visits piece 0 (resting on piece 1)
first, blocks it immediately, then lets piece 1 fall to row 19 — so
piece 0 is left at row 17 with its one-row-down relocation still legal. -/
theorem C10_theorem :
    Consistent c10Board ∧ ValidRefs c10Board ∧ PiecesInBounds c10Board ∧
    (c10Board.collapseFullRows.pieceAt 0).row = 17 ∧
    (c10Board.collapseFullRows.pieceAt 0).col = 0 ∧
    (c10Board.collapseFullRows.pieceAt 1).row = 19 ∧
    (Piece.moveTo c10Board.collapseFullRows 0
      ((c10Board.collapseFullRows.pieceAt 0).row + 1)
      (c10Board.collapseFullRows.pieceAt 0).col
      (c10Board.collapseFullRows.pieceAt 0).tileGrid).1 = true := by
  decide

end Tetris
